import Mathlib

/-!
Verification of the BunBunBash whack-a-bunny game core.

The repository contains two near-duplicate variants of the game:
the newer one in `src/unnamed/part_000` and the older one in
`src/game/app/static/game-files/whackabunny.js`.  Shared logic is
embedded once; where the variants differ (difficulty table, delay
floor, pause behaviour) both versions are embedded, with the
whackabunny.js versions carrying a `WB` suffix.

Modelling conventions:
* Durations, animation progress and random samples are rationals.
* `Math.random()` results are passed in as explicit parameters.
* JavaScript timers: handles stored on the mole
  (`visibilityTimer`, `bashTimer`) are Booleans (pending or not);
  anonymous `setTimeout` calls that the code never stores
  (the next-appearance timer scheduled in `hide`, the 400 ms
  strike-delay timer scheduled in `hit`, the initial random delay
  scheduled in `start`) are modelled as pending-callback counters,
  since the code has no way to cancel them.
* Presentation-only state (canvas, music, red flash, x/y layout)
  is out of scope per the specification and omitted.
* `getDifficultySettings` returns an `Option` profile: a lookup at
  a negative level (unreachable: it needs `timeLeft > 60`) has no
  defined JavaScript value, and callers treat `none` as a no-op.
-/

namespace BunBunBash

/-- A difficulty profile: show/hide duration bounds in milliseconds
and the per-frame animation progress increment. -/
structure Difficulty where
  minShowTime : ℚ
  maxShowTime : ℚ
  minHideTime : ℚ
  maxHideTime : ℚ
  animationSpeed : ℚ
deriving DecidableEq, Repr

/-- The six-level difficulty table of the part_000 variant.
Decimal speed literals are written as explicit fractions
(0.025 = 25/1000 and so on) so they compute in the kernel. -/
def difficultySettings : List Difficulty := [
  ⟨1000, 2750, 1750, 4500, mkRat 25 1000⟩,
  ⟨800, 2500, 1500, 4300, mkRat 30 1000⟩,
  ⟨650, 2300, 1300, 4000, mkRat 35 1000⟩,
  ⟨550, 2100, 1100, 3700, mkRat 40 1000⟩,
  ⟨450, 1900, 900, 3500, mkRat 45 1000⟩,
  ⟨350, 1700, 700, 3300, mkRat 50 1000⟩]

/-- The six-level difficulty table of the whackabunny.js variant. -/
def difficultySettingsWB : List Difficulty := [
  ⟨800, 2500, 1500, 4000, mkRat 20 1000⟩,
  ⟨600, 2200, 1200, 3800, mkRat 25 1000⟩,
  ⟨500, 2000, 1000, 3500, mkRat 30 1000⟩,
  ⟨400, 1800, 800, 3200, mkRat 35 1000⟩,
  ⟨300, 1600, 600, 3000, mkRat 40 1000⟩,
  ⟨200, 1400, 400, 2800, mkRat 45 1000⟩]

/-- Difficulty tier from elapsed seconds:
`Math.min(Math.floor(timeElapsed / 10), 5)` (floor division, so
`Int.fdiv`; the code never clamps below zero). -/
def tierFor (e : Int) : Int := min (Int.fdiv e 10) 5

/-- Array indexing `difficultySettings[level]` as in JavaScript:
a negative or out-of-range index yields no value. -/
def lookupLevel (tbl : List Difficulty) (lvl : Int) : Option Difficulty :=
  if lvl < 0 then none else tbl[lvl.toNat]?

/-- The table row for a tier in 0..5, part_000 variant. -/
def profile (t : Fin 6) : Difficulty :=
  (difficultySettings[t.val]?).getD ⟨0, 0, 0, 0, 0⟩

/-- The table row for a tier in 0..5, whackabunny.js variant. -/
def profileWB (t : Fin 6) : Difficulty :=
  (difficultySettingsWB[t.val]?).getD ⟨0, 0, 0, 0, 0⟩

/-- Per-hole actor state (`Mole` class).  Layout fields
(`x`, `y`, `baseY`, `radius`) are presentation-only and omitted.
`pendingShow` counts anonymous scheduled `show` callbacks
(initial delays from `start` and reschedules from `hide`);
`pendingHitHide` counts anonymous 400 ms `hide` callbacks
scheduled by `hit`.  Neither is cancellable. -/
structure Mole where
  isVisible : Bool
  isHit : Bool
  isGoodMole : Bool
  visibilityTimer : Bool
  animationProgress : ℚ
  isAnimating : Bool
  isBashAnimating : Bool
  bashFrame : Nat
  bashTimer : Bool
  pendingShow : Nat
  pendingHitHide : Nat
deriving DecidableEq, Repr

/-- The global `gameState` record (music, red flash and canvas
fields omitted; `gameTimer` records whether the 1-second interval
is installed). -/
structure GameState where
  running : Bool
  paused : Bool
  score : Int
  timeLeft : Int
  gameTimer : Bool
  difficultyLevel : Int
  gameEnded : Bool
  moles : List Mole
deriving DecidableEq, Repr

/-- `getDifficultySettings()` over a given table: computes
`timeElapsed = 60 - timeLeft`, stores the capped level into
`gameState.difficultyLevel`, and returns the table row. -/
def getDifficultySettingsWith (tbl : List Difficulty) (s : GameState) :
    GameState × Option Difficulty :=
  let lvl := tierFor (60 - s.timeLeft)
  ({ s with difficultyLevel := lvl }, lookupLevel tbl lvl)

/-- `getDifficultySettings()` of the part_000 variant. -/
def getDifficultySettings (s : GameState) : GameState × Option Difficulty :=
  getDifficultySettingsWith difficultySettings s

/-- Base show duration sample:
`Math.random() * (maxShowTime - minShowTime) + minShowTime`. -/
def baseShowDuration (d : Difficulty) (r : ℚ) : ℚ :=
  r * (d.maxShowTime - d.minShowTime) + d.minShowTime

/-- Base hide duration sample:
`Math.random() * (maxHideTime - minHideTime) + minHideTime`. -/
def baseHideDuration (d : Difficulty) (r : ℚ) : ℚ :=
  r * (d.maxHideTime - d.minHideTime) + d.minHideTime

/-- part_000 `show` delay: `Math.max(baseShowDuration, 500)`
(the 500 ms `animationBuffer` floor). -/
def showDuration (d : Difficulty) (r : ℚ) : ℚ :=
  max (baseShowDuration d r) 500

/-- part_000 `hide` delay: `Math.max(baseHideDuration, 500)`. -/
def hideDuration (d : Difficulty) (r : ℚ) : ℚ :=
  max (baseHideDuration d r) 500

/-- whackabunny.js `show` delay: the raw sample, no floor. -/
def showDurationWB (d : Difficulty) (r : ℚ) : ℚ := baseShowDuration d r

/-- whackabunny.js `hide` delay: the raw sample, no floor. -/
def hideDurationWB (d : Difficulty) (r : ℚ) : ℚ := baseHideDuration d r

/-- `Mole.show()` of the part_000 variant.  `r` is the
`Math.random()` kind sample.  Returns the updated game state
(difficulty level recomputed) and mole; the scheduled hide delay
value is tracked by `showDuration` separately, only the pending
handle is recorded here. -/
def Mole.show (r : ℚ) (s : GameState) (m : Mole) : GameState × Mole :=
  if !s.running || s.paused then (s, m)
  else if m.isVisible || m.isAnimating then (s, m)
  else
    let m1 := { m with isVisible := true, isHit := false, isAnimating := true,
                       animationProgress := 0, isGoodMole := decide (r < mkRat 75 100) }
    let s1 := (getDifficultySettings s).1
    (s1, { m1 with visibilityTimer := true })

/-- `Mole.hide()` of the part_000 variant: early return when not
visible; otherwise retract, clear the stored hide timer, and (only
while running and unpaused) schedule the next appearance — an
anonymous timeout, counted in `pendingShow`. -/
def Mole.hide (s : GameState) (m : Mole) : GameState × Mole :=
  if !m.isVisible then (s, m)
  else
    let m1 := { m with isVisible := false, isHit := false, isAnimating := true,
                       visibilityTimer := false }
    if s.running && !s.paused then
      let s1 := (getDifficultySettings s).1
      (s1, { m1 with pendingShow := m1.pendingShow + 1 })
    else (s, m1)

/-- `Mole.update()`: one render-frame animation step.  Progress
moves by the current animation speed and is clamped into [0,1];
reaching a bound ends the animation. -/
def Mole.update (s : GameState) (m : Mole) : GameState × Mole :=
  if m.isAnimating then
    let s1 := (getDifficultySettings s).1
    match (getDifficultySettings s).2 with
    | none => (s1, m)
    | some d =>
      if m.isVisible then
        let p := m.animationProgress + d.animationSpeed
        if 1 ≤ p then (s1, { m with animationProgress := 1, isAnimating := false })
        else (s1, { m with animationProgress := p })
      else
        let p := m.animationProgress - d.animationSpeed
        if p ≤ 0 then (s1, { m with animationProgress := 0, isAnimating := false })
        else (s1, { m with animationProgress := p })
  else (s, m)

/-- `Mole.hit()`: on a visible, not-yet-hit mole, latch `isHit`,
start the bash overlay animation, adjust the score by +10 (good)
or -20 (bad), and schedule the anonymous 400 ms forced hide.
Otherwise a no-op returning `false`. -/
def Mole.hit (s : GameState) (m : Mole) : GameState × Mole × Bool :=
  if m.isVisible && !m.isHit then
    let m1 := { m with isHit := true, isBashAnimating := true, bashFrame := 1,
                       bashTimer := true, pendingHitHide := m.pendingHitHide + 1 }
    let s1 := if m.isGoodMole then { s with score := s.score + 10 }
              else { s with score := s.score - 20 }
    (s1, m1, true)
  else (s, m, false)

/-- Keyboard mapping of `handleKeyPress`: keys a, b, c (after
`toLowerCase`) address moles 0, 1, 2. -/
def keyToIndex (k : Char) : Option Nat :=
  if k.toLower = 'a' then some 0
  else if k.toLower = 'b' then some 1
  else if k.toLower = 'c' then some 2
  else none

/-- `WhackAMoleGame.handleKeyPress(key)`: resolve the key to a
mole; when the mole shows a bunny (`isVisible` and positive
progress) delegate to `Mole.hit`.  Returns the state and whether a
successful hit happened. -/
def handleKeyPress (k : Char) (s : GameState) : GameState × Bool :=
  if !s.running || s.paused then (s, false)
  else
    match keyToIndex k with
    | none => (s, false)
    | some i =>
      match s.moles[i]? with
      | none => (s, false)
      | some m =>
        if m.isVisible && 0 < m.animationProgress then
          let p := Mole.hit s m
          ({ p.1 with moles := p.1.moles.set i p.2.1 }, p.2.2)
        else (s, false)

/-- The per-mole reset performed inside `start()`: cancel both
stored timers and zero the visibility, hit, animation and bash
state.  The anonymous pending callbacks cannot be cancelled. -/
def resetMoleForStart (m : Mole) : Mole :=
  { m with visibilityTimer := false, bashTimer := false, isVisible := false,
           isHit := false, isAnimating := false, animationProgress := 0,
           isBashAnimating := false, bashFrame := 0 }

/-- `WhackAMoleGame.start()`: guarded against running-and-unpaused;
clears the interval and per-mole timers, resets the session fields,
recomputes the difficulty level, installs the 1-second interval and
schedules one randomized initial appearance per mole. -/
def start (s : GameState) : GameState :=
  if s.running && !s.paused then s
  else
    let s1 := { s with gameTimer := false, moles := s.moles.map resetMoleForStart }
    let s2 := { s1 with running := true, paused := false, score := 0, timeLeft := 60,
                        difficultyLevel := 0, gameEnded := false }
    let s3 := (getDifficultySettings s2).1
    { s3 with gameTimer := true,
              moles := s3.moles.map fun m => { m with pendingShow := m.pendingShow + 1 } }

/-- `WhackAMoleGame.pause()` of the part_000 variant: when the game
is not running it starts it; otherwise it toggles `paused`. -/
def pause (s : GameState) : GameState :=
  if !s.running then start s
  else { s with paused := !s.paused }

/-- `WhackAMoleGame.pause()` of the whackabunny.js variant: an
unconditional toggle of `paused`. -/
def pauseWB (s : GameState) : GameState :=
  { s with paused := !s.paused }

/-- The per-mole cleanup performed inside `reset()`: hides the mole
and cancels the stored timers, but leaves `isAnimating`,
`animationProgress` and the anonymous pending callbacks untouched. -/
def resetMoleForReset (m : Mole) : Mole :=
  { m with isVisible := false, isHit := false, visibilityTimer := false,
           bashTimer := false, isBashAnimating := false, bashFrame := 0 }

/-- `WhackAMoleGame.reset()`: hard stop of the session.  Note the
code does not touch `difficultyLevel` here. -/
def reset (s : GameState) : GameState :=
  { s with running := false, paused := false, score := 0, timeLeft := 60,
           gameEnded := false, gameTimer := false,
           moles := s.moles.map resetMoleForReset }

/-- The per-mole cleanup performed inside `gameOver()` (it does not
clear `isHit`, unlike `reset`). -/
def gameOverMole (m : Mole) : Mole :=
  { m with isVisible := false, visibilityTimer := false, bashTimer := false,
           isBashAnimating := false, bashFrame := 0 }

/-- `WhackAMoleGame.gameOver()`: natural end of session. -/
def gameOver (s : GameState) : GameState :=
  { s with running := false, gameEnded := true, gameTimer := false,
           moles := s.moles.map gameOverMole }

/-- One firing of the 1-second interval installed by `start()`:
while not paused, decrement `timeLeft` and end the game once it
reaches 0.  With no interval installed nothing can fire. -/
def tick (s : GameState) : GameState :=
  if s.gameTimer && !s.paused then
    let s1 := { s with timeLeft := s.timeLeft - 1 }
    if s1.timeLeft ≤ 0 then gameOver s1 else s1
  else s

/-- The per-frame mole update pass of the game loop: `update` each
mole in order, threading the game state. -/
def updateMoles (s : GameState) : List Mole → GameState × List Mole
  | [] => (s, [])
  | m :: ms =>
    let p := Mole.update s m
    let q := updateMoles p.1 ms
    (q.1, p.2 :: q.2)

/-- One animation frame of the game loop (the draw half is
presentation-only). -/
def frameStep (s : GameState) : GameState :=
  let p := updateMoles s s.moles
  { p.1 with moles := p.2 }

/-- Firing of one anonymous scheduled `show` callback for mole `i`
(initial delay from `start` or reschedule from `hide`): consume one
pending callback and run `Mole.show`. -/
def fireShow (i : Nat) (r : ℚ) (s : GameState) : GameState :=
  match s.moles[i]? with
  | none => s
  | some m =>
    if 0 < m.pendingShow then
      let m0 := { m with pendingShow := m.pendingShow - 1 }
      let p := Mole.show r s m0
      { p.1 with moles := p.1.moles.set i p.2 }
    else s

/-- Firing of the stored visibility (hide) timer of mole `i`. -/
def fireHide (i : Nat) (s : GameState) : GameState :=
  match s.moles[i]? with
  | none => s
  | some m =>
    if m.visibilityTimer then
      let m0 := { m with visibilityTimer := false }
      let p := Mole.hide s m0
      { p.1 with moles := p.1.moles.set i p.2 }
    else s

/-- Firing of one anonymous 400 ms strike-delay `hide` callback of
mole `i` (scheduled by `hit`). -/
def fireHitHide (i : Nat) (s : GameState) : GameState :=
  match s.moles[i]? with
  | none => s
  | some m =>
    if 0 < m.pendingHitHide then
      let m0 := { m with pendingHitHide := m.pendingHitHide - 1 }
      let p := Mole.hide s m0
      { p.1 with moles := p.1.moles.set i p.2 }
    else s

/-- Firing of the stored bash-animation timer of mole `i`: frame 1
advances to frame 2 (rescheduling itself); frame 2 ends the
overlay. -/
def fireBash (i : Nat) (s : GameState) : GameState :=
  match s.moles[i]? with
  | none => s
  | some m =>
    if m.bashTimer then
      if m.bashFrame = 1 then
        { s with moles := s.moles.set i { m with bashFrame := 2 } }
      else
        let m1 := { m with isBashAnimating := false, bashFrame := 0, bashTimer := false }
        { s with moles := s.moles.set i m1 }
    else s

/-- Every operation that can reach the game state: user commands,
the session clock, render frames and timer callbacks. -/
inductive Op where
  | opShow (i : Nat) (r : ℚ)
  | opHide (i : Nat)
  | opHitHide (i : Nat)
  | opBash (i : Nat)
  | opFrame
  | opKey (k : Char)
  | opStart
  | opPause
  | opReset
  | opTick

/-- Small-step semantics of the game: apply one operation. -/
def step : Op → GameState → GameState
  | .opShow i r, s => fireShow i r s
  | .opHide i, s => fireHide i s
  | .opHitHide i, s => fireHitHide i s
  | .opBash i, s => fireBash i s
  | .opFrame, s => frameStep s
  | .opKey k, s => (handleKeyPress k s).1
  | .opStart, s => start s
  | .opPause, s => pause s
  | .opReset, s => reset s
  | .opTick, s => tick s

/-- A freshly constructed mole (the `Mole` constructor). -/
def initMole : Mole :=
  { isVisible := false, isHit := false, isGoodMole := true, visibilityTimer := false,
    animationProgress := 0, isAnimating := false, isBashAnimating := false,
    bashFrame := 0, bashTimer := false, pendingShow := 0, pendingHitHide := 0 }

/-- The initial `gameState` after the game constructor installed
the three moles. -/
def initialState : GameState :=
  { running := false, paused := false, score := 0, timeLeft := 60, gameTimer := false,
    difficultyLevel := 0, gameEnded := false, moles := [initMole, initMole, initMole] }

/-- The animation progress of one mole lies in [0, 1]. -/
def MoleProg (m : Mole) : Prop :=
  0 ≤ m.animationProgress ∧ m.animationProgress ≤ 1

/-- Animation progress of every mole lies in [0, 1]. -/
def ProgressInv (s : GameState) : Prop :=
  ∀ m ∈ s.moles, MoleProg m

/-- Strict tier-to-tier tightening: every duration bound strictly
decreases and the animation speed strictly increases. -/
def StrictlyHarder (p : Fin 6 → Difficulty) (t1 t2 : Fin 6) : Prop :=
  (p t2).minShowTime < (p t1).minShowTime ∧
  (p t2).maxShowTime < (p t1).maxShowTime ∧
  (p t2).minHideTime < (p t1).minHideTime ∧
  (p t2).maxHideTime < (p t1).maxHideTime ∧
  (p t1).animationSpeed < (p t2).animationSpeed

/-- A mole currently showing a hostile (bad) bunny, fully popped. -/
def hostileVisibleMole : Mole :=
  { initMole with isVisible := true, isGoodMole := false, animationProgress := 1 }

/-- A mole currently showing a benign (good) bunny, fully popped. -/
def benignVisibleMole : Mole :=
  { initMole with isVisible := true, isGoodMole := true, animationProgress := 1 }

/-- An unpaused running session whose moles are all still hidden. -/
def idleRunningState : GameState :=
  { initialState with running := true }

/-- No mole holds any pending timer: neither of the stored handles
nor any anonymous scheduled callback. -/
def NoPendingTimers (s : GameState) : Prop :=
  ∀ m ∈ s.moles, m.visibilityTimer = false ∧ m.bashTimer = false ∧
    m.pendingShow = 0 ∧ m.pendingHitHide = 0

instance (m : Mole) : Decidable (MoleProg m) :=
  inferInstanceAs (Decidable (_ ∧ _))

instance (p : Fin 6 → Difficulty) (t1 t2 : Fin 6) : Decidable (StrictlyHarder p t1 t2) :=
  inferInstanceAs (Decidable (_ ∧ _ ∧ _ ∧ _ ∧ _))

instance (s : GameState) : Decidable (ProgressInv s) :=
  List.decidableBAll _ s.moles

instance (s : GameState) : Decidable (NoPendingTimers s) :=
  List.decidableBAll _ s.moles

/-! ### Helper lemmas -/

theorem set_getElem_self {α : Type _} : ∀ (l : List α) (i : Nat) (a : α),
    l[i]? = some a → l.set i a = l
  | [], _, _, h => by simp at h
  | x :: xs, 0, a, h => by
    simp only [List.getElem?_cons_zero, Option.some.injEq] at h
    simp [h]
  | x :: xs, i + 1, a, h => by
    simp only [List.getElem?_cons_succ] at h
    simp [List.set, set_getElem_self xs i a h]

theorem difficulty_speed_nonneg : ∀ d ∈ difficultySettings, 0 ≤ d.animationSpeed := by
  decide

theorem lookup_mem : ∀ (tbl : List Difficulty) (lvl : Int) (d : Difficulty),
    lookupLevel tbl lvl = some d → d ∈ tbl := by
  intro tbl lvl d h
  unfold lookupLevel at h
  split at h
  · exact absurd h (by simp)
  · exact List.getElem?_mem h

/-! ### Claims -/

/-- C1: for every pair of tiers t1 < t2 the difficulty tables of
both variants satisfy the monotonicity contract: animationSpeed is
(weakly and strictly) increasing and every duration bound
(minShowTime, maxShowTime, minHideTime, maxHideTime) strictly
decreasing. -/
theorem c1_monotonic_difficulty : ∀ t1 t2 : Fin 6, t1 < t2 →
    ((profile t1).animationSpeed ≤ (profile t2).animationSpeed ∧
     (profile t2).maxShowTime ≤ (profile t1).maxShowTime) ∧
    StrictlyHarder profile t1 t2 ∧ StrictlyHarder profileWB t1 t2 := by
  decide

theorem c1_witness :
    ((0 : Fin 6) < 1) ∧
    ((profile 0).animationSpeed ≤ (profile 1).animationSpeed ∧
     (profile 1).maxShowTime ≤ (profile 0).maxShowTime) ∧
    StrictlyHarder profile 0 1 ∧ StrictlyHarder profileWB 0 1 :=
  ⟨by decide, c1_monotonic_difficulty 0 1 (by decide)⟩

/-- C2: the computed difficulty tier is exactly
min(floor(e / 10), 5) for every elapsed time e ≥ 0, is
non-decreasing in e, takes the documented values at 0, 9, 10 and
65, and `getDifficultySettings` derives e as 60 - timeLeft and
stores the tier in the difficultyLevel field. -/
theorem c2_tier_formula :
    (∀ e : ℕ, tierFor e = ((min (e / 10) 5 : ℕ) : ℤ)) ∧
    (∀ e1 e2 : ℕ, e1 ≤ e2 → tierFor e1 ≤ tierFor e2) ∧
    tierFor 0 = 0 ∧ tierFor 9 = 0 ∧ tierFor 10 = 1 ∧ tierFor 65 = 5 ∧
    (∀ s : GameState,
      ((getDifficultySettings s).1).difficultyLevel = tierFor (60 - s.timeLeft)) := by
  have key : ∀ e : ℕ, tierFor e = ((min (e / 10) 5 : ℕ) : ℤ) := by
    intro e
    unfold tierFor
    have h := Int.ofNat_fdiv e 10
    push_cast at h
    rw [← h]
    push_cast
    rfl
  refine ⟨key, ?_, by decide, by decide, by decide, by decide, fun s => rfl⟩
  intro e1 e2 h
  rw [key e1, key e2]
  exact_mod_cast min_le_min (Nat.div_le_div_right h) le_rfl

theorem c2_witness :
    tierFor 65 = ((min (65 / 10) 5 : ℕ) : ℤ) ∧
    (3 : ℕ) ≤ 42 ∧ tierFor 3 ≤ tierFor 42 :=
  ⟨c2_tier_formula.1 65, by decide, c2_tier_formula.2.1 3 42 (by decide)⟩

/-- C3: a strike on a visible, not-yet-struck actor reports a hit,
latches the struck flag, and changes the (unbounded integer) score
by exactly +10 for a benign bunny and exactly -20 for a hostile
one, for every game state and hence independently of the tier. -/
theorem c3_strike_scoring : ∀ (s : GameState) (m : Mole),
    m.isVisible = true → m.isHit = false →
    (Mole.hit s m).2.2 = true ∧
    ((Mole.hit s m).2.1).isHit = true ∧
    (m.isGoodMole = true → (Mole.hit s m).1.score = s.score + 10) ∧
    (m.isGoodMole = false → (Mole.hit s m).1.score = s.score - 20) := by
  intro s m hv hh
  by_cases hg : m.isGoodMole <;> simp [Mole.hit, hv, hh, hg]

theorem c3_witness :
    hostileVisibleMole.isVisible = true ∧ hostileVisibleMole.isHit = false ∧
    (Mole.hit initialState hostileVisibleMole).2.2 = true ∧
    ((Mole.hit initialState hostileVisibleMole).2.1).isHit = true ∧
    (Mole.hit initialState hostileVisibleMole).1.score = initialState.score - 20 ∧
    (Mole.hit initialState hostileVisibleMole).1.score < 0 ∧
    (Mole.hit initialState benignVisibleMole).1.score = initialState.score + 10 :=
  ⟨rfl, rfl,
   (c3_strike_scoring initialState hostileVisibleMole rfl rfl).1,
   (c3_strike_scoring initialState hostileVisibleMole rfl rfl).2.1,
   (c3_strike_scoring initialState hostileVisibleMole rfl rfl).2.2.2 rfl,
   by decide,
   (c3_strike_scoring initialState benignVisibleMole rfl rfl).2.2.1 rfl⟩

/-- C9 (amended): in the part_000 variant `pause` behaves as
`start` when the session is not running and toggles the paused flag
otherwise; in the whackabunny.js variant `pause` always just
toggles the paused flag, even when the session is idle. -/
theorem c9_pause_amended : ∀ s : GameState,
    (s.running = false → pause s = start s) ∧
    (s.running = true → pause s = { s with paused := !s.paused }) ∧
    pauseWB s = { s with paused := !s.paused } := by
  intro s
  refine ⟨fun h => ?_, fun h => ?_, rfl⟩ <;> simp [pause, h]

theorem c9_witness : pause initialState = start initialState :=
  (c9_pause_amended initialState).1 rfl

/-- C9 counterexample: in the whackabunny.js variant, calling
`pause` on the idle initial state does not behave as `start`: the
session stays not running and merely gets `paused = true`. -/
theorem c9_counterexample :
    initialState.running = false ∧
    (pauseWB initialState).running = false ∧
    (pauseWB initialState).paused = true ∧
    (start initialState).running = true ∧
    pauseWB initialState ≠ start initialState := by
  decide

/-- C10: in the part_000 variant, calling `show` on a mole that is
already visible or still animating is a complete no-op on both the
mole and the game state. -/
theorem c10_show_noop : ∀ (r : ℚ) (s : GameState) (m : Mole),
    m.isVisible = true ∨ m.isAnimating = true →
    Mole.show r s m = (s, m) := by
  intro r s m h
  by_cases h1 : (!s.running || s.paused) = true
  · simp [Mole.show, h1]
  · have h2 : (m.isVisible || m.isAnimating) = true := by
      rcases h with h | h <;> simp [h]
    simp [Mole.show, h1, h2]

theorem c10_witness :
    hostileVisibleMole.isVisible = true ∧
    Mole.show 0 idleRunningState hostileVisibleMole = (idleRunningState, hostileVisibleMole) :=
  ⟨rfl, c10_show_noop 0 idleRunningState hostileVisibleMole (Or.inl rfl)⟩

/-- C5: a strike command whose target mole is hidden, already
struck, or nonexistent reports a miss and leaves the entire game
state (score, every mole field and every pending timer) unchanged. -/
theorem c5_miss_no_change : ∀ (k : Char) (s : GameState) (i : Nat),
    keyToIndex k = some i →
    (∀ m, s.moles[i]? = some m → m.isVisible = false ∨ m.isHit = true) →
    handleKeyPress k s = (s, false) := by
  intro k s i hk hm
  unfold handleKeyPress
  by_cases h1 : (!s.running || s.paused) = true
  · simp [h1]
  · cases hmi : s.moles[i]? with
    | none => simp [h1, hk, hmi]
    | some m =>
      rcases hm m hmi with hv | hh
      · simp [h1, hk, hmi, hv]
      · have hhit : Mole.hit s m = (s, m, false) := by simp [Mole.hit, hh]
        by_cases hg : (m.isVisible && decide (0 < m.animationProgress)) = true
        · simp only [h1, Bool.false_eq_true, if_false, hk, hmi, hg, if_true, hhit]
          rw [set_getElem_self s.moles i m hmi]
        · simp [h1, hk, hmi, hg]

theorem c5_witness :
    keyToIndex 'a' = some 0 ∧
    idleRunningState.moles[0]? = some initMole ∧
    initMole.isVisible = false ∧
    handleKeyPress 'a' idleRunningState = (idleRunningState, false) :=
  ⟨rfl, rfl, rfl,
   c5_miss_no_change 'a' idleRunningState 0 rfl (by
    intro m hm
    rw [show idleRunningState.moles[0]? = some initMole from rfl] at hm
    cases hm
    exact Or.inl rfl)⟩

/-- C7 (amended): `reset` always yields score 0, timeLeft 60,
running, paused and ended all false, cancels the stored interval
and every stored per-mole visibility and bash timer, hides every
mole and clears its bash overlay; but the anonymous next-appearance
and strike-delay timeouts stay pending (the code holds no handle to
them), and the animation progress of a mid-animation mole is not
reset. -/
theorem c7_reset_amended : ∀ s : GameState,
    (reset s).score = 0 ∧ (reset s).timeLeft = 60 ∧ (reset s).running = false ∧
    (reset s).paused = false ∧ (reset s).gameEnded = false ∧
    (reset s).gameTimer = false ∧
    (reset s).moles.map Mole.pendingShow = s.moles.map Mole.pendingShow ∧
    (reset s).moles.map Mole.pendingHitHide = s.moles.map Mole.pendingHitHide ∧
    (reset s).moles.map Mole.animationProgress = s.moles.map Mole.animationProgress ∧
    ∀ m ∈ (reset s).moles, m.isVisible = false ∧ m.isHit = false ∧
      m.visibilityTimer = false ∧ m.bashTimer = false ∧
      m.isBashAnimating = false ∧ m.bashFrame = 0 := by
  intro s
  refine ⟨rfl, rfl, rfl, rfl, rfl, rfl, ?_, ?_, ?_, ?_⟩
  · show (s.moles.map resetMoleForReset).map Mole.pendingShow
        = s.moles.map Mole.pendingShow
    rw [List.map_map]
    rfl
  · show (s.moles.map resetMoleForReset).map Mole.pendingHitHide
        = s.moles.map Mole.pendingHitHide
    rw [List.map_map]
    rfl
  · show (s.moles.map resetMoleForReset).map Mole.animationProgress
        = s.moles.map Mole.animationProgress
    rw [List.map_map]
    rfl
  · intro m hm
    have hm2 : m ∈ s.moles.map resetMoleForReset := hm
    rcases List.mem_map.mp hm2 with ⟨a, -, rfl⟩
    exact ⟨rfl, rfl, rfl, rfl, rfl, rfl⟩

theorem c7_witness :
    (reset initialState).score = 0 ∧ (reset initialState).timeLeft = 60 ∧
    (reset initialState).running = false ∧ (reset initialState).gameEnded = false ∧
    (resetMoleForReset initMole).isVisible = false :=
  ⟨(c7_reset_amended initialState).1, (c7_reset_amended initialState).2.1,
   (c7_reset_amended initialState).2.2.1,
   (c7_reset_amended initialState).2.2.2.2.1,
   ((c7_reset_amended initialState).2.2.2.2.2.2.2.2.2
     (resetMoleForReset initMole) (by decide)).1⟩

/-- C7 counterexample: immediately after a fresh `start` each mole
has one anonymous pending initial-appearance timeout; `reset`
cannot cancel those, so the reset state still has pending
next-appearance timers — the claim that reset leaves no actor with
a pending timer fails at this reachable state. -/
theorem c7_counterexample :
    (reset (start initialState)).running = false ∧
    (reset (start initialState)).moles.map Mole.pendingShow = [1, 1, 1] ∧
    ¬ NoPendingTimers (reset (start initialState)) := by
  decide

/-- C8 (amended): in the part_000 variant every scheduled show and
hide delay is the affine image of one uniform sample r in [0,1)
over the [min, max) range of the tier profile, with the 500 ms
animation-buffer floor then enforced via max; the whackabunny.js
variant applies no floor. -/
theorem c8_delay_floor : ∀ (t : Fin 6) (r : ℚ), 0 ≤ r → r < 1 →
    ((profile t).minShowTime ≤ baseShowDuration (profile t) r ∧
     baseShowDuration (profile t) r < (profile t).maxShowTime ∧
     showDuration (profile t) r = max (baseShowDuration (profile t) r) 500 ∧
     500 ≤ showDuration (profile t) r) ∧
    ((profile t).minHideTime ≤ baseHideDuration (profile t) r ∧
     baseHideDuration (profile t) r < (profile t).maxHideTime ∧
     hideDuration (profile t) r = max (baseHideDuration (profile t) r) 500 ∧
     500 ≤ hideDuration (profile t) r) := by
  have affine : ∀ (q M r : ℚ), q < M → 0 ≤ r → r < 1 →
      q ≤ r * (M - q) + q ∧ r * (M - q) + q < M := by
    intro q M r h h0 h1
    constructor <;> nlinarith
  intro t r h0 h1
  have hs : (profile t).minShowTime < (profile t).maxShowTime := by
    revert t
    decide
  have hh : (profile t).minHideTime < (profile t).maxHideTime := by
    revert t
    decide
  have bs := affine (profile t).minShowTime (profile t).maxShowTime r hs h0 h1
  have bh := affine (profile t).minHideTime (profile t).maxHideTime r hh h0 h1
  exact ⟨⟨bs.1, bs.2, rfl, le_max_right _ _⟩, ⟨bh.1, bh.2, rfl, le_max_right _ _⟩⟩

theorem c8_witness :
    (0 : ℚ) ≤ 0 ∧ (0 : ℚ) < 1 ∧
    500 ≤ showDuration (profile 5) 0 ∧ 500 ≤ hideDuration (profile 5) 0 :=
  ⟨by decide, by decide,
   ((c8_delay_floor 5 0 (by decide) (by decide)).1).2.2.2,
   ((c8_delay_floor 5 0 (by decide) (by decide)).2).2.2.2⟩

/-- C8 counterexample: the whackabunny.js variant never applies a
floor: at tier 5 the sampled show delay with r = 0 is the raw
200 ms minimum — below the 500 ms animation buffer part_000
enforces, and too short for the pop animation to complete: in the
12 frames a 60 fps renderer produces within 200 ms, progress
reaches at most 12 * 0.045 = 0.54 < 1, so the pop is truncated. -/
theorem c8_counterexample :
    showDurationWB (profileWB 5) 0 = 200 ∧
    showDurationWB (profileWB 5) 0 < 500 ∧
    (12 : ℚ) * (profileWB 5).animationSpeed < 1 ∧
    (12 : ℚ) * (1000 / 60) = 200 := by
  refine ⟨?_, ?_, ?_, by norm_num⟩
  · show (0 : ℚ) * (1400 - 200) + 200 = 200
    norm_num
  · show (0 : ℚ) * (1400 - 200) + 200 < 500
    norm_num
  · show (12 : ℚ) * mkRat 45 1000 < 1
    rw [Rat.mkRat_eq_div]
    norm_num

/-! ### Progress invariant machinery for C4 -/

theorem show_fst_moles (r : ℚ) (s : GameState) (m : Mole) :
    ((Mole.show r s m).1).moles = s.moles := by
  unfold Mole.show
  split
  · rfl
  · split <;> rfl

theorem hide_fst_moles (s : GameState) (m : Mole) :
    ((Mole.hide s m).1).moles = s.moles := by
  unfold Mole.hide
  split
  · rfl
  · split <;> rfl

theorem hit_fst_moles (s : GameState) (m : Mole) :
    ((Mole.hit s m).1).moles = s.moles := by
  by_cases hv : (m.isVisible && !m.isHit) = true
  · by_cases hg : m.isGoodMole = true <;> simp [Mole.hit, hv, hg]
  · simp [Mole.hit, hv]

theorem show_snd_progress (r : ℚ) (s : GameState) (m : Mole) (h : MoleProg m) :
    MoleProg (Mole.show r s m).2 := by
  unfold Mole.show
  split
  · exact h
  · split
    · exact h
    · exact ⟨le_refl 0, by norm_num⟩

theorem hide_snd_progress (s : GameState) (m : Mole) (h : MoleProg m) :
    MoleProg (Mole.hide s m).2 := by
  unfold Mole.hide
  split
  · exact h
  · split
    · exact h
    · exact h

theorem hit_snd_progress (s : GameState) (m : Mole) (h : MoleProg m) :
    MoleProg (Mole.hit s m).2.1 := by
  unfold Mole.hit
  split
  · exact h
  · exact h

theorem update_snd_progress (s : GameState) (m : Mole) (h : MoleProg m) :
    MoleProg (Mole.update s m).2 := by
  obtain ⟨h0, h1⟩ := h
  unfold Mole.update
  by_cases ha : m.isAnimating = true
  · simp only [ha, if_true]
    cases hd : (getDifficultySettings s).2 with
    | none => simp only [hd]; exact ⟨h0, h1⟩
    | some d =>
      have hsp : 0 ≤ d.animationSpeed :=
        difficulty_speed_nonneg d
          (lookup_mem difficultySettings (tierFor (60 - s.timeLeft)) d hd)
      simp only [hd]
      by_cases hv : m.isVisible = true
      · simp only [hv, if_true]
        by_cases hcl : (1 : ℚ) ≤ m.animationProgress + d.animationSpeed
        · simp only [hcl, if_true]
          exact ⟨by norm_num, le_refl 1⟩
        · simp only [hcl, if_false]
          refine ⟨?_, ?_⟩
          · show (0 : ℚ) ≤ m.animationProgress + d.animationSpeed
            linarith
          · show m.animationProgress + d.animationSpeed ≤ 1
            linarith [not_le.mp hcl]
      · rw [Bool.not_eq_true] at hv
        simp only [hv, Bool.false_eq_true, if_false]
        by_cases hcl : m.animationProgress - d.animationSpeed ≤ 0
        · simp only [hcl, if_true]
          exact ⟨le_refl 0, by norm_num⟩
        · simp only [hcl, if_false]
          refine ⟨?_, ?_⟩
          · show (0 : ℚ) ≤ m.animationProgress - d.animationSpeed
            linarith [not_le.mp hcl]
          · show m.animationProgress - d.animationSpeed ≤ 1
            linarith
  · simp only [ha]
    exact ⟨h0, h1⟩

theorem progressInv_mk (s1 : GameState) (l : List Mole) (h : ∀ m ∈ l, MoleProg m) :
    ProgressInv { s1 with moles := l } := h

theorem updateMoles_progress : ∀ (ms : List Mole) (s : GameState),
    (∀ m ∈ ms, MoleProg m) → ∀ m2 ∈ (updateMoles s ms).2, MoleProg m2 := by
  intro ms
  induction ms with
  | nil =>
    intro s h m2 hm2
    simp [updateMoles] at hm2
  | cons m ms ih =>
    intro s h m2 hm2
    have he : (updateMoles s (m :: ms)).2
        = (Mole.update s m).2 :: (updateMoles (Mole.update s m).1 ms).2 := rfl
    rw [he] at hm2
    rcases List.mem_cons.mp hm2 with rfl | hm3
    · exact update_snd_progress s m (h m (List.mem_cons_self m ms))
    · exact ih (Mole.update s m).1 (fun a ha => h a (List.mem_cons_of_mem m ha)) m2 hm3

theorem fireShow_progressInv (i : Nat) (r : ℚ) (s : GameState) (hs : ProgressInv s) :
    ProgressInv (fireShow i r s) := by
  unfold fireShow
  cases hmi : s.moles[i]? with
  | none => exact hs
  | some m =>
    by_cases hp : 0 < m.pendingShow
    · simp only [hp, if_true]
      intro m2 hm2
      have hm3 : m2 ∈ ((Mole.show r s { m with pendingShow := m.pendingShow - 1 }).1).moles.set
          i (Mole.show r s { m with pendingShow := m.pendingShow - 1 }).2 := hm2
      rw [show_fst_moles] at hm3
      rcases List.mem_or_eq_of_mem_set hm3 with h | rfl
      · exact hs m2 h
      · exact show_snd_progress r s _ (hs m (List.getElem?_mem hmi))
    · simp only [hp]
      exact hs

theorem fireHide_progressInv (i : Nat) (s : GameState) (hs : ProgressInv s) :
    ProgressInv (fireHide i s) := by
  unfold fireHide
  cases hmi : s.moles[i]? with
  | none => exact hs
  | some m =>
    by_cases hp : m.visibilityTimer = true
    · simp only [hp, if_true]
      intro m2 hm2
      have hm3 : m2 ∈ ((Mole.hide s { m with visibilityTimer := false }).1).moles.set
          i (Mole.hide s { m with visibilityTimer := false }).2 := hm2
      rw [hide_fst_moles] at hm3
      rcases List.mem_or_eq_of_mem_set hm3 with h | rfl
      · exact hs m2 h
      · exact hide_snd_progress s _ (hs m (List.getElem?_mem hmi))
    · simp only [hp]
      exact hs

theorem fireHitHide_progressInv (i : Nat) (s : GameState) (hs : ProgressInv s) :
    ProgressInv (fireHitHide i s) := by
  unfold fireHitHide
  cases hmi : s.moles[i]? with
  | none => exact hs
  | some m =>
    by_cases hp : 0 < m.pendingHitHide
    · simp only [hp, if_true]
      intro m2 hm2
      have hm3 : m2 ∈
          ((Mole.hide s { m with pendingHitHide := m.pendingHitHide - 1 }).1).moles.set
          i (Mole.hide s { m with pendingHitHide := m.pendingHitHide - 1 }).2 := hm2
      rw [hide_fst_moles] at hm3
      rcases List.mem_or_eq_of_mem_set hm3 with h | rfl
      · exact hs m2 h
      · exact hide_snd_progress s _ (hs m (List.getElem?_mem hmi))
    · simp only [hp]
      exact hs

theorem fireBash_progressInv (i : Nat) (s : GameState) (hs : ProgressInv s) :
    ProgressInv (fireBash i s) := by
  unfold fireBash
  cases hmi : s.moles[i]? with
  | none => exact hs
  | some m =>
    by_cases hp : m.bashTimer = true
    · simp only [hp, if_true]
      by_cases hf : m.bashFrame = 1
      · simp only [hf, if_true]
        intro m2 hm2
        rcases List.mem_or_eq_of_mem_set hm2 with h | rfl
        · exact hs m2 h
        · exact hs m (List.getElem?_mem hmi)
      · simp only [hf, if_false]
        intro m2 hm2
        rcases List.mem_or_eq_of_mem_set hm2 with h | rfl
        · exact hs m2 h
        · exact hs m (List.getElem?_mem hmi)
    · simp only [hp]
      exact hs

theorem frameStep_progressInv (s : GameState) (hs : ProgressInv s) :
    ProgressInv (frameStep s) := by
  unfold frameStep
  exact progressInv_mk _ _ (updateMoles_progress s.moles s hs)

theorem handleKeyPress_progressInv (k : Char) (s : GameState) (hs : ProgressInv s) :
    ProgressInv (handleKeyPress k s).1 := by
  by_cases h1 : (!s.running || s.paused) = true
  · simp only [handleKeyPress, h1, if_true]
    exact hs
  · cases hk : keyToIndex k with
    | none =>
      simp only [handleKeyPress, h1, Bool.false_eq_true, if_false, hk]
      exact hs
    | some i =>
      cases hmi : s.moles[i]? with
      | none =>
        simp only [handleKeyPress, h1, Bool.false_eq_true, if_false, hk, hmi]
        exact hs
      | some m =>
        by_cases hg : (m.isVisible && decide (0 < m.animationProgress)) = true
        · simp only [handleKeyPress, h1, Bool.false_eq_true, if_false, hk, hmi, hg, if_true]
          intro m2 hm2
          have hm3 : m2 ∈ ((Mole.hit s m).1).moles.set i (Mole.hit s m).2.1 := hm2
          rw [hit_fst_moles] at hm3
          rcases List.mem_or_eq_of_mem_set hm3 with h | rfl
          · exact hs m2 h
          · exact hit_snd_progress s m (hs m (List.getElem?_mem hmi))
        · simp only [handleKeyPress, h1, Bool.false_eq_true, if_false, hk, hmi, hg]
          exact hs

theorem start_progressInv (s : GameState) (hs : ProgressInv s) :
    ProgressInv (start s) := by
  unfold start
  by_cases h1 : (s.running && !s.paused) = true
  · simp only [h1, if_true]
    exact hs
  · simp only [h1, Bool.false_eq_true, if_false]
    intro m2 hm2
    have hm3 : m2 ∈ (s.moles.map resetMoleForStart).map
        (fun m => { m with pendingShow := m.pendingShow + 1 }) := hm2
    rcases List.mem_map.mp hm3 with ⟨a, ha, rfl⟩
    rcases List.mem_map.mp ha with ⟨b, hb, rfl⟩
    exact ⟨le_refl 0, by show (0 : ℚ) ≤ 1; norm_num⟩

theorem pause_progressInv (s : GameState) (hs : ProgressInv s) :
    ProgressInv (pause s) := by
  unfold pause
  by_cases h1 : (!s.running) = true
  · simp only [h1, if_true]
    exact start_progressInv s hs
  · simp only [h1, Bool.false_eq_true, if_false]
    exact hs

theorem reset_progressInv (s : GameState) (hs : ProgressInv s) :
    ProgressInv (reset s) := by
  intro m2 hm2
  have hm3 : m2 ∈ s.moles.map resetMoleForReset := hm2
  rcases List.mem_map.mp hm3 with ⟨a, ha, rfl⟩
  exact hs a ha

theorem tick_progressInv (s : GameState) (hs : ProgressInv s) :
    ProgressInv (tick s) := by
  unfold tick
  by_cases h1 : (s.gameTimer && !s.paused) = true
  · simp only [h1, if_true]
    by_cases h2 : s.timeLeft - 1 ≤ 0
    · simp only [h2, if_true]
      intro m2 hm2
      have hm3 : m2 ∈ s.moles.map gameOverMole := hm2
      rcases List.mem_map.mp hm3 with ⟨a, ha, rfl⟩
      exact hs a ha
    · simp only [h2, if_false]
      exact hs
  · simp only [h1, Bool.false_eq_true, if_false]
    exact hs

/-- C4: every operation of the game (timer callbacks for show,
hide, forced strike-hide and bash, the per-frame update, key
strikes, start, pause, reset and the session clock) preserves the
invariant that every mole holds an animation progress in [0, 1]:
the per-frame step moves progress by the current animation speed
and clamps it at both bounds before any other operation can
observe it. -/
theorem c4_progress_invariant : ∀ (op : Op) (s : GameState),
    ProgressInv s → ProgressInv (step op s) := by
  intro op s hs
  cases op with
  | opShow i r => exact fireShow_progressInv i r s hs
  | opHide i => exact fireHide_progressInv i s hs
  | opHitHide i => exact fireHitHide_progressInv i s hs
  | opBash i => exact fireBash_progressInv i s hs
  | opFrame => exact frameStep_progressInv s hs
  | opKey k => exact handleKeyPress_progressInv k s hs
  | opStart => exact start_progressInv s hs
  | opPause => exact pause_progressInv s hs
  | opReset => exact reset_progressInv s hs
  | opTick => exact tick_progressInv s hs

theorem c4_witness :
    ProgressInv initialState ∧
    ProgressInv (step Op.opFrame (step Op.opStart initialState)) :=
  ⟨by decide,
   c4_progress_invariant Op.opFrame (step Op.opStart initialState)
     (c4_progress_invariant Op.opStart initialState (by decide))⟩

/-! ### Session clock machinery for C6 -/

theorem tick_timeLeft_decrement : ∀ s : GameState,
    s.gameTimer = true → s.paused = false →
    (tick s).timeLeft = s.timeLeft - 1 := by
  intro s hg hp
  simp only [tick, hg, hp, Bool.not_false, Bool.and_self, if_true]
  split <;> rfl

theorem tick_clock_inv : ∀ s : GameState,
    0 ≤ s.timeLeft → (s.gameTimer = true → 1 ≤ s.timeLeft) →
    0 ≤ (tick s).timeLeft ∧ ((tick s).gameTimer = true → 1 ≤ (tick s).timeLeft) := by
  intro s h0 h1
  unfold tick
  by_cases hg : (s.gameTimer && !s.paused) = true
  · have hgt : s.gameTimer = true := by
      rcases Bool.and_eq_true _ _ |>.mp hg with ⟨h, -⟩
      exact h
    have h2 : 1 ≤ s.timeLeft := h1 hgt
    simp only [hg, if_true]
    by_cases hz : s.timeLeft - 1 ≤ 0
    · simp only [hz, if_true]
      refine ⟨?_, ?_⟩
      · show (0 : ℤ) ≤ s.timeLeft - 1
        omega
      · intro hgt2
        have hf : False := by simp [gameOver] at hgt2
        exact hf.elim
    · simp only [hz, if_false]
      refine ⟨?_, fun _ => ?_⟩
      · show (0 : ℤ) ≤ s.timeLeft - 1
        omega
      · show (1 : ℤ) ≤ s.timeLeft - 1
        omega
  · simp only [hg, Bool.false_eq_true, if_false]
    exact ⟨h0, h1⟩

theorem iterate_tick_nonneg : ∀ k : Nat,
    0 ≤ (tick^[k] (start initialState)).timeLeft ∧
    ((tick^[k] (start initialState)).gameTimer = true →
      1 ≤ (tick^[k] (start initialState)).timeLeft) := by
  intro k
  induction k with
  | zero => exact ⟨by decide, fun _ => by decide⟩
  | succ n ih =>
    rw [Function.iterate_succ_apply']
    exact tick_clock_inv _ ih.1 ih.2

set_option maxRecDepth 4000 in
/-- C6: starting fresh and firing the 1-second session clock
exactly 60 times with paused false throughout ends the session
(gameEnded true, running false) with timeLeft exactly 0; each tick
while the clock is installed, the game running and not paused
decrements timeLeft by exactly 1, and timeLeft never drops below 0
along the whole run. -/
theorem c6_session_clock :
    (tick^[60] (start initialState)).gameEnded = true ∧
    (tick^[60] (start initialState)).running = false ∧
    (tick^[60] (start initialState)).timeLeft = 0 ∧
    (∀ s : GameState, s.running = true → s.gameTimer = true → s.paused = false →
      (tick s).timeLeft = s.timeLeft - 1) ∧
    (∀ k : Nat, 0 ≤ (tick^[k] (start initialState)).timeLeft) := by
  refine ⟨by decide, by decide, by decide, ?_, ?_⟩
  · intro s _ hg hp
    exact tick_timeLeft_decrement s hg hp
  · intro k
    exact (iterate_tick_nonneg k).1

theorem c6_witness :
    (start initialState).running = true ∧
    (start initialState).gameTimer = true ∧
    (start initialState).paused = false ∧
    (tick (start initialState)).timeLeft = (start initialState).timeLeft - 1 ∧
    0 ≤ (tick^[7] (start initialState)).timeLeft :=
  ⟨rfl, rfl, rfl,
   c6_session_clock.2.2.2.1 (start initialState) rfl rfl rfl,
   c6_session_clock.2.2.2.2 7⟩

end BunBunBash
